import Mathlib

/-!
Formal model of the video-assembly core in `services/render_service.py`
(repository `BenStein1/eJesus`).

Python strings are embedded as `List Char`; machine floats that only
carry durations/coordinates are embedded as exact rationals `ℚ`;
fallible external process calls are embedded as `Except`-valued steps
driven by an oracle.  Each definition mirrors one function of the
source file, named after it where Lean naming rules allow.
-/

namespace RenderService

/-! ### Resolution parser (`_parse_resolution`, render_service.py lines 18-22) -/

/-- `str.strip()` on a character list: drop leading and trailing whitespace. -/
def stripChars (s : List Char) : List Char :=
  ((s.dropWhile Char.isWhitespace).reverse.dropWhile Char.isWhitespace).reverse

/-- Numeric value of one decimal digit character (`int` parsing step). -/
def digitVal (c : Char) : ℕ := c.toNat - '0'.toNat

/-- `int(s)` for a string of decimal digits. -/
def digitsVal (s : List Char) : ℕ := s.foldl (fun acc c => acc * 10 + digitVal c) 0

/-- The regex match `re.match(r"^(\d+)x(\d+)$", t)`: a maximal nonempty
digit prefix, the literal delimiter `x`, then a nonempty all-digit rest.
Returns the two captured groups as numbers. -/
def matchWH (t : List Char) : Option (ℕ × ℕ) :=
  match t.dropWhile Char.isDigit with
  | 'x' :: rest =>
      if t.takeWhile Char.isDigit ≠ [] ∧ rest ≠ [] ∧ rest.all Char.isDigit then
        some (digitsVal (t.takeWhile Char.isDigit), digitsVal rest)
      else none
  | _ => none

/-- `_parse_resolution` (lines 18-22): parse `"<W>x<H>"` after stripping;
on any failure fall back to `(1920, 1080)`. -/
def parse_resolution (s : List Char) : ℕ × ℕ :=
  match matchWH (stripChars s) with
  | some (w, h) => (w, h)
  | none => (1920, 1080)

/-- A well-formed resolution string body: nonempty digits, `x`, nonempty digits. -/
def wellFormedRes (t : List Char) : Prop :=
  ∃ d1 d2 : List Char, t = d1 ++ 'x' :: d2 ∧ d1 ≠ [] ∧ d2 ≠ [] ∧
    d1.all Char.isDigit ∧ d2.all Char.isDigit

-- helper lemmas about the character-level scanning

lemma isDigit_not_whitespace {c : Char} (h : c.isDigit = true) :
    ¬ c.isWhitespace = true := by
  intro hw
  simp only [Char.isWhitespace, Bool.or_eq_true, decide_eq_true_eq] at hw
  rcases hw with ((hw | hw) | hw) | hw <;> subst hw <;> exact absurd h (by decide)

lemma dropWhile_eq_self_of_forall {p : Char → Bool} :
    ∀ {l : List Char}, (∀ c ∈ l, ¬ p c) → l.dropWhile p = l := by
  intro l h
  cases l with
  | nil => rfl
  | cons a l =>
      rw [List.dropWhile_cons]
      simp [h a (List.mem_cons_self a l)]

lemma stripChars_eq_self {l : List Char} (h : ∀ c ∈ l, ¬ c.isWhitespace) :
    stripChars l = l := by
  unfold stripChars
  rw [dropWhile_eq_self_of_forall h, dropWhile_eq_self_of_forall, List.reverse_reverse]
  intro c hc
  exact h c (List.mem_reverse.mp hc)

lemma takeWhile_digits_append {d1 rest : List Char}
    (hd : d1.all Char.isDigit) (hr : rest.takeWhile Char.isDigit = []) :
    (d1 ++ rest).takeWhile Char.isDigit = d1 := by
  induction d1 with
  | nil => simpa using hr
  | cons a l ih =>
      simp only [List.all_cons, Bool.and_eq_true] at hd
      simp [List.takeWhile_cons, hd.1, ih hd.2]

lemma dropWhile_digits_append {d1 rest : List Char}
    (hd : d1.all Char.isDigit) (hr : rest.dropWhile Char.isDigit = rest) :
    (d1 ++ rest).dropWhile Char.isDigit = rest := by
  induction d1 with
  | nil => simpa using hr
  | cons a l ih =>
      simp only [List.all_cons, Bool.and_eq_true] at hd
      simp [List.dropWhile_cons, hd.1, ih hd.2]

lemma matchWH_append {d1 d2 : List Char} (h1 : d1 ≠ []) (h2 : d2 ≠ [])
    (hall1 : d1.all Char.isDigit) (hall2 : d2.all Char.isDigit) :
    matchWH (d1 ++ 'x' :: d2) = some (digitsVal d1, digitsVal d2) := by
  have hx : ('x' :: d2).takeWhile Char.isDigit = [] := by
    simp [List.takeWhile_cons]
  have hx' : ('x' :: d2).dropWhile Char.isDigit = 'x' :: d2 := by
    simp [List.dropWhile_cons]
  unfold matchWH
  rw [takeWhile_digits_append hall1 hx, dropWhile_digits_append hall1 hx']
  simp [h1, h2, hall2]

lemma matchWH_some_wellFormed {t : List Char} {w h : ℕ}
    (hm : matchWH t = some (w, h)) :
    ∃ d1 d2 : List Char, t = d1 ++ 'x' :: d2 ∧ d1 ≠ [] ∧ d2 ≠ [] ∧
      d1.all Char.isDigit ∧ d2.all Char.isDigit ∧
      w = digitsVal d1 ∧ h = digitsVal d2 := by
  unfold matchWH at hm
  split at hm
  case h_1 rest hrest =>
    split at hm
    case isTrue hcond =>
      obtain ⟨hne1, hne2, hall2⟩ := hcond
      obtain ⟨hw, hh⟩ := Prod.mk.injEq .. ▸ Option.some.inj hm
      refine ⟨t.takeWhile Char.isDigit, rest, ?_, hne1, hne2, ?_, hall2, hw.symm, hh.symm⟩
      · rw [← hrest, List.takeWhile_append_dropWhile]
      · exact List.all_eq_true.mpr fun c hc => List.mem_takeWhile_imp hc
    case isFalse => exact absurd hm (by simp)
  case h_2 => exact absurd hm (by simp)

/-- **C4.** For every well-formed `"<W>x<H>"` input (nonempty numeric parts,
single delimiter), `_parse_resolution` returns the integer pair `(W, H)`;
for every malformed input (no such decomposition of the stripped string)
it returns the fixed default `(1920, 1080)`.  The embedding is a total
function, so no exception is possible. -/
theorem parse_resolution_wellformed_and_default :
    (∀ d1 d2 : List Char, d1 ≠ [] → d2 ≠ [] →
      d1.all Char.isDigit → d2.all Char.isDigit →
      parse_resolution (d1 ++ 'x' :: d2) = (digitsVal d1, digitsVal d2)) ∧
    (∀ s : List Char, ¬ wellFormedRes (stripChars s) →
      parse_resolution s = (1920, 1080)) := by
  constructor
  · intro d1 d2 h1 h2 hall1 hall2
    have hstrip : stripChars (d1 ++ 'x' :: d2) = d1 ++ 'x' :: d2 := by
      apply stripChars_eq_self
      intro c hc
      rcases List.mem_append.mp hc with hcl | hcr
      · exact isDigit_not_whitespace (List.all_eq_true.mp hall1 c hcl)
      · rcases List.mem_cons.mp hcr with rfl | hcr'
        · decide
        · exact isDigit_not_whitespace (List.all_eq_true.mp hall2 c hcr')
    unfold parse_resolution
    rw [hstrip, matchWH_append h1 h2 hall1 hall2]
  · intro s hmal
    unfold parse_resolution
    rcases hm : matchWH (stripChars s) with _ | ⟨w, h⟩
    · rfl
    · obtain ⟨d1, d2, heq, h1, h2, hall1, hall2, _, _⟩ := matchWH_some_wellFormed hm
      exact absurd ⟨d1, d2, heq, h1, h2, hall1, hall2⟩ hmal

/-- Witness for C4: a concrete well-formed parse and a concrete malformed parse. -/
theorem parse_resolution_wellformed_and_default_witness :
    parse_resolution (['6', '4', '0'] ++ 'x' :: ['4', '8', '0']) =
      (digitsVal ['6', '4', '0'], digitsVal ['4', '8', '0']) ∧
    parse_resolution ['f', 'o', 'o'] = (1920, 1080) := by
  constructor
  · exact parse_resolution_wellformed_and_default.1 ['6', '4', '0'] ['4', '8', '0']
      (by decide) (by decide) (by decide) (by decide)
  · refine parse_resolution_wellformed_and_default.2 ['f', 'o', 'o'] ?_
    rintro ⟨d1, d2, heq, -, -, -, -⟩
    have hx : 'x' ∈ stripChars ['f', 'o', 'o'] := by
      rw [heq]
      exact List.mem_append_right _ (List.mem_cons_self _ _)
    revert hx
    decide

/-- **C5 counterexample.** The well-formed input `"0x0"` parses to `(0, 0)`:
the returned width is not positive, refuting the claim that the parser
always returns strictly positive dimensions. -/
theorem parse_resolution_zero_counterexample :
    parse_resolution ['0', 'x', '0'] = (0, 0) ∧
    ¬ (0 < (parse_resolution ['0', 'x', '0']).1 ∧
       0 < (parse_resolution ['0', 'x', '0']).2) := by
  decide

/-- **C5 (amended).** For every input string the parser's result is either
a pair of strictly positive integers, or the input was well formed and one
of its parsed numeric groups has value zero (e.g. `"0x0"`), in which case
those exact parsed values are returned.  (In particular the default path
always yields the positive pair `(1920, 1080)`.) -/
theorem parse_resolution_positive_unless_zero_group (s : List Char) :
    (0 < (parse_resolution s).1 ∧ 0 < (parse_resolution s).2) ∨
    (∃ d1 d2 : List Char, stripChars s = d1 ++ 'x' :: d2 ∧ d1 ≠ [] ∧ d2 ≠ [] ∧
      d1.all Char.isDigit ∧ d2.all Char.isDigit ∧
      parse_resolution s = (digitsVal d1, digitsVal d2) ∧
      (digitsVal d1 = 0 ∨ digitsVal d2 = 0)) := by
  rcases hm : matchWH (stripChars s) with _ | ⟨w, h⟩
  · left
    unfold parse_resolution
    rw [hm]
    exact ⟨by norm_num, by norm_num⟩
  · have hp : parse_resolution s = (w, h) := by
      unfold parse_resolution; rw [hm]
    obtain ⟨d1, d2, heq, h1, h2, hall1, hall2, hw, hh⟩ := matchWH_some_wellFormed hm
    by_cases hz : w = 0 ∨ h = 0
    · right
      exact ⟨d1, d2, heq, h1, h2, hall1, hall2, by rw [hp, hw, hh],
        by rcases hz with hz | hz
           · exact Or.inl (hw ▸ hz)
           · exact Or.inr (hh ▸ hz)⟩
    · left
      push_neg at hz
      rw [hp]
      exact ⟨Nat.pos_of_ne_zero hz.1, Nat.pos_of_ne_zero hz.2⟩

/-! ### Motion patterns (`_zoompan_expr`, render_service.py lines 130-182) -/

/-- `floor(max(iw-(ow/zoom),0))` (lines 145-146): the safe pan span of one
axis at the fixed zoom, quantized to an integer. -/
def spanSafe (z i o : ℚ) : ℤ := ⌊max (i - o / z) 0⌋

/-- `round((a)*(1-t)+(b)*t)` (lines 157-158): integer linear interpolation
between the anchors `a` and `b` at progress `t`. -/
def lerpRound (a b t : ℚ) : ℤ := round (a * (1 - t) + b * t)

/-- Numeric evaluation, at progress `t`, of the pan-coordinate expressions
returned by `_zoompan_expr` (lines 160-181): fixed zoom `z`, safe spans,
integer midpoint, and the five directional pan laws; any mode outside
`0..3` takes the final `else` branch, exactly as in the source.
`iw, ih` are the input frame's dimensions, `ow, oh` the output's. -/
def zoompan_xy (z iw ih ow oh : ℚ) (mode : ℕ) (t : ℚ) : ℤ × ℤ :=
  let xs : ℚ := ((spanSafe z iw ow : ℤ) : ℚ)
  let ys : ℚ := ((spanSafe z ih oh : ℤ) : ℚ)
  let ymid : ℤ := round (ys / 2)
  if mode = 0 then (lerpRound 0 xs t, ymid)
  else if mode = 1 then (lerpRound 0 xs t, lerpRound ys 0 t)
  else if mode = 2 then (lerpRound 0 xs t, lerpRound 0 ys t)
  else if mode = 3 then (lerpRound xs 0 t, lerpRound ys 0 t)
  else (lerpRound xs 0 t, lerpRound 0 ys t)

lemma round_nonneg_le {n : ℤ} {v : ℚ} (h0 : 0 ≤ v) (hn : v ≤ (n : ℚ)) :
    0 ≤ round v ∧ round v ≤ n := by
  constructor
  · rw [round_eq]
    exact Int.floor_nonneg.mpr (by linarith)
  · rw [round_eq]
    calc ⌊v + 1 / 2⌋ ≤ ⌊(n : ℚ) + 1 / 2⌋ := Int.floor_le_floor (by linarith)
    _ = n + ⌊(1 : ℚ) / 2⌋ := Int.floor_int_add n (1 / 2)
    _ = n := by norm_num

lemma spanSafe_nonneg (z i o : ℚ) : 0 ≤ spanSafe z i o :=
  Int.floor_nonneg.mpr (le_max_right _ _)

lemma lerpRound_up_mem {n : ℤ} (hn : 0 ≤ n) {t : ℚ} (ht0 : 0 ≤ t) (ht1 : t ≤ 1) :
    0 ≤ lerpRound 0 (n : ℚ) t ∧ lerpRound 0 (n : ℚ) t ≤ n := by
  have hnq : (0 : ℚ) ≤ (n : ℚ) := by exact_mod_cast hn
  exact round_nonneg_le (by nlinarith) (by nlinarith)

lemma lerpRound_down_mem {n : ℤ} (hn : 0 ≤ n) {t : ℚ} (ht0 : 0 ≤ t) (ht1 : t ≤ 1) :
    0 ≤ lerpRound (n : ℚ) 0 t ∧ lerpRound (n : ℚ) 0 t ≤ n := by
  have hnq : (0 : ℚ) ≤ (n : ℚ) := by exact_mod_cast hn
  exact round_nonneg_le (by nlinarith) (by nlinarith)

lemma round_half_mem {n : ℤ} (hn : 0 ≤ n) :
    0 ≤ round ((n : ℚ) / 2) ∧ round ((n : ℚ) / 2) ≤ n := by
  have hnq : (0 : ℚ) ≤ (n : ℚ) := by exact_mod_cast hn
  exact round_nonneg_le (by linarith) (by linarith)

/-- For any unit-interval progress and any mode, both interpolated
coordinates stay inside the safe spans. -/
lemma zoompan_xy_mem (z iw ih ow oh : ℚ) (m : ℕ) {t : ℚ}
    (ht0 : 0 ≤ t) (ht1 : t ≤ 1) :
    0 ≤ (zoompan_xy z iw ih ow oh m t).1 ∧
    (zoompan_xy z iw ih ow oh m t).1 ≤ spanSafe z iw ow ∧
    0 ≤ (zoompan_xy z iw ih ow oh m t).2 ∧
    (zoompan_xy z iw ih ow oh m t).2 ≤ spanSafe z ih oh := by
  have hx := spanSafe_nonneg z iw ow
  have hy := spanSafe_nonneg z ih oh
  unfold zoompan_xy
  dsimp only
  split_ifs
  · exact ⟨(lerpRound_up_mem hx ht0 ht1).1, (lerpRound_up_mem hx ht0 ht1).2,
           (round_half_mem hy).1, (round_half_mem hy).2⟩
  · exact ⟨(lerpRound_up_mem hx ht0 ht1).1, (lerpRound_up_mem hx ht0 ht1).2,
           (lerpRound_down_mem hy ht0 ht1).1, (lerpRound_down_mem hy ht0 ht1).2⟩
  · exact ⟨(lerpRound_up_mem hx ht0 ht1).1, (lerpRound_up_mem hx ht0 ht1).2,
           (lerpRound_up_mem hy ht0 ht1).1, (lerpRound_up_mem hy ht0 ht1).2⟩
  · exact ⟨(lerpRound_down_mem hx ht0 ht1).1, (lerpRound_down_mem hx ht0 ht1).2,
           (lerpRound_down_mem hy ht0 ht1).1, (lerpRound_down_mem hy ht0 ht1).2⟩
  · exact ⟨(lerpRound_down_mem hx ht0 ht1).1, (lerpRound_down_mem hx ht0 ht1).2,
           (lerpRound_up_mem hy ht0 ht1).1, (lerpRound_up_mem hy ht0 ht1).2⟩

/-- **C3.** For every motion mode `m ∈ {0..4}`, every frame count `F ≥ 1`
and every frame index `frame ≤ F - 1`, the interpolated pan coordinates at
progress `t = frame / max(1, F-1)` produced by `_zoompan_expr` lie within
`[0, span_x] × [0, span_y]`, the maximum pannable spans computed at the
fixed zoom `z`. -/
theorem zoompan_xy_within_span (z iw ih ow oh : ℚ) (m : ℕ) (hm : m < 5)
    (F frame : ℕ) (hF : 1 ≤ F) (hframe : frame ≤ F - 1) :
    0 ≤ (zoompan_xy z iw ih ow oh m ((frame : ℚ) / ((max 1 (F - 1) : ℕ) : ℚ))).1 ∧
    (zoompan_xy z iw ih ow oh m ((frame : ℚ) / ((max 1 (F - 1) : ℕ) : ℚ))).1 ≤ spanSafe z iw ow ∧
    0 ≤ (zoompan_xy z iw ih ow oh m ((frame : ℚ) / ((max 1 (F - 1) : ℕ) : ℚ))).2 ∧
    (zoompan_xy z iw ih ow oh m ((frame : ℚ) / ((max 1 (F - 1) : ℕ) : ℚ))).2 ≤ spanSafe z ih oh := by
  have hle : frame ≤ max 1 (F - 1) := by omega
  have hdpos : (0 : ℚ) < ((max 1 (F - 1) : ℕ) : ℚ) := by
    have : 1 ≤ max 1 (F - 1) := le_max_left _ _
    exact_mod_cast Nat.lt_of_lt_of_le Nat.zero_lt_one this
  refine zoompan_xy_mem z iw ih ow oh m ?_ ?_
  · positivity
  · rw [div_le_one hdpos]
    exact_mod_cast hle

/-- Witness for C3 at `z = 5/4`, a 1920×1080 frame, mode 1, `F = 2`, `frame = 1`. -/
theorem zoompan_xy_within_span_witness :
    0 ≤ (zoompan_xy (5/4) 1920 1080 1920 1080 1 ((1 : ℚ) / ((max 1 (2 - 1) : ℕ) : ℚ))).1 ∧
    (zoompan_xy (5/4) 1920 1080 1920 1080 1 ((1 : ℚ) / ((max 1 (2 - 1) : ℕ) : ℚ))).1 ≤
      spanSafe (5/4) 1920 1920 ∧
    0 ≤ (zoompan_xy (5/4) 1920 1080 1920 1080 1 ((1 : ℚ) / ((max 1 (2 - 1) : ℕ) : ℚ))).2 ∧
    (zoompan_xy (5/4) 1920 1080 1920 1080 1 ((1 : ℚ) / ((max 1 (2 - 1) : ℕ) : ℚ))).2 ≤
      spanSafe (5/4) 1080 1080 := by
  have h := zoompan_xy_within_span (5/4) 1920 1080 1920 1080 1 (by norm_num) 2 1
    (by norm_num) (by norm_num)
  exact_mod_cast h

/-! ### Duration planner (`render_kenburns_video`, render_service.py lines 278-316) -/

/-- `total_sec = max(1.0, len(audio) / 1000.0)` (line 280): the narration
duration `T` in seconds, floored at one second. -/
def total_sec (T : ℚ) : ℚ := max 1.0 T

/-- Intro guardrail (lines 290-291): if the narration is shorter than the
configured intro plus three seconds, shrink the intro to
`max(2.0, 20% of the narration)`. -/
def introAdjusted (T I0 : ℚ) : ℚ :=
  if total_sec T < I0 + 3 then max 2.0 (total_sec T * 0.20) else I0

/-- `if not images: images = [title_bg_png]` (lines 294-295). -/
def effImages (images : List String) (titleBg : String) : List String :=
  if images = [] then [titleBg] else images

/-- `remaining = max(0.1, total_sec - intro_seconds)` (line 298). -/
def remainingAfterIntro (T I0 : ℚ) : ℚ :=
  max 0.1 (total_sec T - introAdjusted T I0)

/-- `min_per_slide = 4.0` (line 301). -/
def min_per_slide : ℚ := 4.0

/-- `max_per_slide = 12.0` (line 302). -/
def max_per_slide : ℚ := 12.0

/-- `ideal = max(min_per_slide, min(max_per_slide, remaining / max(1, len(images))))`
(line 303). -/
def idealDur (remaining : ℚ) (n : ℕ) : ℚ :=
  max min_per_slide (min max_per_slide (remaining / ((max 1 n : ℕ) : ℚ)))

/-- The greedy planning loop (lines 306-313), with explicit fuel: while
`t_accum + ideal < remaining - 0.25`, append `(images[i % len], ideal)`
and advance `t_accum` and the cycling index `i`.  Returns the appended
entries together with the final `t_accum` and final `i`. -/
def planLoop (imgs : List String) (ideal R : ℚ) :
    ℕ → ℚ → ℕ → List (String × ℚ) × ℚ × ℕ
  | 0, t, i => ([], t, i)
  | fuel + 1, t, i =>
    if t + ideal < R - 0.25 then
      ((imgs.getD (i % imgs.length) "", ideal) ::
          (planLoop imgs ideal R fuel (t + ideal) (i + 1)).1,
        (planLoop imgs ideal R fuel (t + ideal) (i + 1)).2)
    else ([], t, i)

/-- Fuel that provably outlasts the loop: each iteration adds `ideal ≥ 4`
to `t_accum`, so `⌈R/4⌉ + 1` steps always reach the exit condition. -/
def planFuel (R : ℚ) : ℕ := (⌈R / 4⌉).toNat + 1

/-- State of the greedy loop at exit, for the planner's actual arguments. -/
def planState (T I0 : ℚ) (images : List String) (titleBg : String) :
    List (String × ℚ) × ℚ × ℕ :=
  planLoop (effImages images titleBg)
    (idealDur (remainingAfterIntro T I0) (effImages images titleBg).length)
    (remainingAfterIntro T I0) (planFuel (remainingAfterIntro T I0)) 0 0

/-- The slide plan (lines 300-316): the greedy entries followed by the tail
entry `(images[i % len], max(1.0, remaining - t_accum))`. -/
def slide_plan (T I0 : ℚ) (images : List String) (titleBg : String) :
    List (String × ℚ) :=
  let imgs := effImages images titleBg
  let R := remainingAfterIntro T I0
  let res := planState T I0 images titleBg
  let tail := max 1.0 (R - res.2.1)
  res.1 ++ [(imgs.getD (res.2.2 % imgs.length) "", tail)]

/-- Total planned slide time: `sum(duration for _, duration in slide_plan)`. -/
def planSum (plan : List (String × ℚ)) : ℚ := (plan.map Prod.snd).sum

-- loop invariants

lemma planLoop_durations (imgs : List String) (ideal R : ℚ) :
    ∀ (fuel : ℕ) (t : ℚ) (i : ℕ), ∀ e ∈ (planLoop imgs ideal R fuel t i).1,
      e.2 = ideal := by
  intro fuel
  induction fuel with
  | zero => intro t i e he; simp [planLoop] at he
  | succ n ih =>
      intro t i e he
      rw [planLoop] at he
      split_ifs at he with hg
      · rcases List.mem_cons.mp he with rfl | hmem
        · rfl
        · exact ih _ _ e hmem
      · simp at he

lemma getD_mem_of_ne_nil {l : List String} (hne : l ≠ []) (k : ℕ) (d : String) :
    l.getD (k % l.length) d ∈ l := by
  have hlt : k % l.length < l.length :=
    Nat.mod_lt _ (List.length_pos.mpr hne)
  rw [List.getD_eq_getElem l d hlt]
  exact List.getElem_mem hlt

lemma planLoop_images (imgs : List String) (ideal R : ℚ) (hne : imgs ≠ []) :
    ∀ (fuel : ℕ) (t : ℚ) (i : ℕ), ∀ e ∈ (planLoop imgs ideal R fuel t i).1,
      e.1 ∈ imgs := by
  intro fuel
  induction fuel with
  | zero => intro t i e he; simp [planLoop] at he
  | succ n ih =>
      intro t i e he
      rw [planLoop] at he
      split_ifs at he with hg
      · rcases List.mem_cons.mp he with rfl | hmem
        · exact getD_mem_of_ne_nil hne i ""
        · exact ih _ _ e hmem
      · simp at he

lemma planLoop_taccum (imgs : List String) (ideal R : ℚ) :
    ∀ (fuel : ℕ) (t : ℚ) (i : ℕ),
      (planLoop imgs ideal R fuel t i).2.1 =
        t + ideal * ((planLoop imgs ideal R fuel t i).1).length := by
  intro fuel
  induction fuel with
  | zero => intro t i; simp [planLoop]
  | succ n ih =>
      intro t i
      rw [planLoop]
      split_ifs with hg
      · simp only [List.length_cons]
        rw [ih]
        push_cast
        ring
      · simp

lemma planLoop_exit (imgs : List String) (ideal R : ℚ) :
    ∀ (fuel : ℕ) (t : ℚ) (i : ℕ),
      (planLoop imgs ideal R fuel t i).2.1 = t ∨
      (planLoop imgs ideal R fuel t i).2.1 < R - 0.25 := by
  intro fuel
  induction fuel with
  | zero => intro t i; left; simp [planLoop]
  | succ n ih =>
      intro t i
      rw [planLoop]
      split_ifs with hg
      · rcases ih (t + ideal) (i + 1) with h | h
        · right; simp only [h]; exact hg
        · right; exact h
      · left; rfl

lemma planLoop_fuel_stable (imgs : List String) (ideal R : ℚ) (hid : 4 ≤ ideal) :
    ∀ (fuel m : ℕ) (t : ℚ) (i : ℕ), R - t ≤ 4 * fuel →
      planLoop imgs ideal R (fuel + m) t i = planLoop imgs ideal R fuel t i := by
  intro fuel
  induction fuel with
  | zero =>
      intro m t i hRt
      have hng : ¬ (t + ideal < R - 0.25) := by
        push_cast at hRt
        norm_num
        linarith
      cases m with
      | zero => rfl
      | succ m' =>
          rw [Nat.zero_add]
          conv_lhs => rw [planLoop]
          rw [if_neg hng]
          rfl
  | succ n ih =>
      intro m t i hRt
      have hsucc : n + 1 + m = (n + m) + 1 := by omega
      rw [hsucc, planLoop, planLoop]
      split_ifs with hg
      · rw [ih m (t + ideal) (i + 1) (by push_cast at hRt ⊢; linarith)]
      · rfl

lemma idealDur_mem (R : ℚ) (n : ℕ) : 4 ≤ idealDur R n ∧ idealDur R n ≤ 12 := by
  unfold idealDur min_per_slide max_per_slide
  constructor
  · exact le_trans (by norm_num) (le_max_left _ _)
  · refine max_le (by norm_num) (le_trans (min_le_left _ _) (by norm_num))

lemma sum_map_snd_const {l : List (String × ℚ)} {c : ℚ} (h : ∀ e ∈ l, e.2 = c) :
    (l.map Prod.snd).sum = c * l.length := by
  induction l with
  | nil => simp
  | cons a l ih =>
      simp only [List.map_cons, List.sum_cons, List.length_cons]
      rw [h a (List.mem_cons_self a l), ih (fun e he => h e (List.mem_cons_of_mem a he))]
      push_cast
      ring

lemma remaining_pos (T I0 : ℚ) : 0 < remainingAfterIntro T I0 :=
  lt_of_lt_of_le (by norm_num) (le_max_left 0.1 _)

lemma R_le_four_mul_planFuel {R : ℚ} (hR : 0 ≤ R) : R ≤ 4 * ((planFuel R : ℕ) : ℚ) := by
  unfold planFuel
  have hc : (0 : ℤ) ≤ ⌈R / 4⌉ := Int.ceil_nonneg (by positivity)
  have hle : R / 4 ≤ (⌈R / 4⌉ : ℚ) := Int.le_ceil _
  have hcast : ((⌈R / 4⌉.toNat : ℕ) : ℚ) = ((⌈R / 4⌉ : ℤ) : ℚ) := by
    exact_mod_cast congrArg (fun z : ℤ => (z : ℚ)) (Int.toNat_of_nonneg hc)
  push_cast
  rw [hcast]
  linarith

/-- `planState` together with the loop invariants: final `t_accum` is the
entry count times `ideal`, and the loop exits either immediately or with
`t_accum < R - 0.25`. -/
lemma planState_spec (T I0 : ℚ) (images : List String) (titleBg : String) :
    (planState T I0 images titleBg).2.1 =
      idealDur (remainingAfterIntro T I0) (effImages images titleBg).length *
        ((planState T I0 images titleBg).1).length ∧
    ((planState T I0 images titleBg).2.1 = 0 ∨
      (planState T I0 images titleBg).2.1 < remainingAfterIntro T I0 - 0.25) := by
  constructor
  · have := planLoop_taccum (effImages images titleBg)
      (idealDur (remainingAfterIntro T I0) (effImages images titleBg).length)
      (remainingAfterIntro T I0) (planFuel (remainingAfterIntro T I0)) 0 0
    simpa [planState] using this
  · have := planLoop_exit (effImages images titleBg)
      (idealDur (remainingAfterIntro T I0) (effImages images titleBg).length)
      (remainingAfterIntro T I0) (planFuel (remainingAfterIntro T I0)) 0 0
    simpa [planState] using this

lemma planSum_eq (T I0 : ℚ) (images : List String) (titleBg : String) :
    planSum (slide_plan T I0 images titleBg) =
      (planState T I0 images titleBg).2.1 +
        max 1.0 (remainingAfterIntro T I0 - (planState T I0 images titleBg).2.1) := by
  unfold slide_plan planSum
  rw [List.map_append, List.sum_append]
  have hdur := planLoop_durations (effImages images titleBg)
    (idealDur (remainingAfterIntro T I0) (effImages images titleBg).length)
    (remainingAfterIntro T I0) (planFuel (remainingAfterIntro T I0)) 0 0
  have hsum : ((planState T I0 images titleBg).1.map Prod.snd).sum =
      idealDur (remainingAfterIntro T I0) (effImages images titleBg).length *
        ((planState T I0 images titleBg).1).length :=
    sum_map_snd_const (fun e he => hdur e he)
  rw [hsum, ← (planState_spec T I0 images titleBg).1]
  simp

lemma planSum_ge (T I0 : ℚ) (images : List String) (titleBg : String) :
    remainingAfterIntro T I0 ≤ planSum (slide_plan T I0 images titleBg) := by
  rw [planSum_eq]
  have := le_max_right 1.0 (remainingAfterIntro T I0 - (planState T I0 images titleBg).2.1)
  linarith

lemma planSum_le (T I0 : ℚ) (images : List String) (titleBg : String)
    (hR1 : 1 ≤ remainingAfterIntro T I0) :
    planSum (slide_plan T I0 images titleBg) ≤ remainingAfterIntro T I0 + 0.75 := by
  rw [planSum_eq]
  rcases (planState_spec T I0 images titleBg).2 with h0 | hlt
  · rw [h0, sub_zero, zero_add]
    rw [max_eq_right (by exact_mod_cast le_trans (by norm_num) hR1)]
    linarith
  · rcases le_or_lt (1.0 : ℚ) (remainingAfterIntro T I0 - (planState T I0 images titleBg).2.1)
      with hc | hc
    · rw [max_eq_right hc]
      linarith
    · rw [max_eq_left (le_of_lt hc)]
      linarith

lemma total_sec_eq_of_ge_one {T : ℚ} (hT : 1 ≤ T) : total_sec T = T :=
  max_eq_right (by norm_num; linarith)

lemma remaining_sub_ge_one (I0 : ℚ) {T : ℚ} (hT : 3 ≤ T) :
    1 ≤ total_sec T - introAdjusted T I0 := by
  have ht : total_sec T = T := total_sec_eq_of_ge_one (by linarith)
  unfold introAdjusted
  rw [ht]
  split_ifs with h
  · have h2 : (2.0 : ℚ) ≤ T - 1 := by norm_num; linarith
    have h5 : T * 0.20 ≤ T - 1 := by norm_num; linarith
    have := max_le h2 h5
    linarith
  · push_neg at h
    linarith

lemma remainingAfterIntro_eq (I0 : ℚ) {T : ℚ} (hT : 3 ≤ T) :
    remainingAfterIntro T I0 = T - introAdjusted T I0 ∧
    1 ≤ remainingAfterIntro T I0 := by
  have h1 := remaining_sub_ge_one I0 hT
  have ht : total_sec T = T := total_sec_eq_of_ge_one (by linarith)
  rw [ht] at h1
  constructor
  · unfold remainingAfterIntro
    rw [ht]
    exact max_eq_right (by norm_num; linarith)
  · unfold remainingAfterIntro
    rw [ht]
    exact le_trans h1 (le_max_right _ _)

lemma effImages_nil (t : String) : effImages [] t = [t] := rfl

/-- When the loop guard fails on the very first check, the loop exits with
no entries, `t_accum = 0` and `i = 0`. -/
lemma planState_eq_nil (T I0 : ℚ) (images : List String) (titleBg : String)
    (hguard : ¬ ((0 : ℚ) +
        idealDur (remainingAfterIntro T I0) (effImages images titleBg).length <
          remainingAfterIntro T I0 - 0.25)) :
    planState T I0 images titleBg = ([], 0, 0) := by
  unfold planState planFuel
  rw [planLoop, if_neg hguard]

/-- **C1 counterexample.** For a one-second narration (`T = 1 > 0`) with the
default five-second intro and no images, the guardrail sets the intro to
2.0s, the remaining-time floor forces `R = 0.1`, and the tail floor forces a
1.0s slide: intro plus planned slide time is `3.0`, overshooting the
narration duration by `2.0` — far beyond the 0.25s tolerance the planner
itself uses, so the total is not within a small ε of `T` for every `T > 0`. -/
theorem plan_total_counterexample :
    introAdjusted 1 5 + planSum (slide_plan 1 5 [] "cache/title_card.png") - 1 = 2 ∧
    ¬ |introAdjusted 1 5 + planSum (slide_plan 1 5 [] "cache/title_card.png") - 1| ≤ 0.25 := by
  have hI : introAdjusted (1 : ℚ) 5 = 2 := by
    unfold introAdjusted total_sec
    norm_num [max_def]
  have hR : remainingAfterIntro (1 : ℚ) 5 = 0.1 := by
    unfold remainingAfterIntro introAdjusted total_sec
    norm_num [max_def]
  have hguard : ¬ ((0 : ℚ) +
      idealDur (remainingAfterIntro 1 5)
        (effImages [] "cache/title_card.png").length <
        remainingAfterIntro 1 5 - 0.25) := by
    have h4 := (idealDur_mem (remainingAfterIntro 1 5)
      (effImages [] "cache/title_card.png").length).1
    intro hcontra
    rw [hR] at hcontra h4
    norm_num at hcontra h4
    linarith
  have hplan : planSum (slide_plan 1 5 [] "cache/title_card.png") = 1 := by
    rw [planSum_eq, planState_eq_nil 1 5 [] "cache/title_card.png" hguard, hR]
    norm_num [max_def]
  rw [hI, hplan]
  constructor
  · norm_num
  · norm_num

/-- **C1 (amended).** For every image list (`N ≥ 0`), every configured intro
duration and every narration duration `T ≥ 3` (long enough that neither the
`max(0.1, ·)` remaining-time floor nor the `max(1.0, ·)` tail floor can
overshoot), the planned slide time plus the guardrail-adjusted intro is
within `0.75` of `T`. -/
theorem plan_total_close (T I0 : ℚ) (images : List String) (titleBg : String)
    (hT : 3 ≤ T) :
    |introAdjusted T I0 + planSum (slide_plan T I0 images titleBg) - T| ≤ 0.75 := by
  obtain ⟨hReq, hR1⟩ := remainingAfterIntro_eq I0 hT
  have hge := planSum_ge T I0 images titleBg
  have hle := planSum_le T I0 images titleBg hR1
  rw [abs_le]
  rw [hReq] at hge hle
  constructor
  · linarith
  · linarith

/-- Witness for C1 (amended): `T = 10`, `I₀ = 3`, two images — the planner
covers the 7 remaining seconds exactly. -/
theorem plan_total_close_witness :
    |introAdjusted 10 3 + planSum (slide_plan 10 3 ["a", "b"] "t.png") - 10| ≤ 0.75 :=
  plan_total_close 10 3 ["a", "b"] "t.png" (by norm_num)

/-- **C2 counterexample.** With no images, `T = 40` and `I₀ = 8` the
remaining time is 32s, the per-slide ideal clamps to 12s, and the greedy
loop emits two 12s entries before the 8s tail: the plan has three entries,
not exactly one. -/
theorem plan_single_slide_counterexample :
    (slide_plan 40 8 [] "cache/title_card.png").length = 3 ∧
    (slide_plan 40 8 [] "cache/title_card.png").length ≠ 1 := by
  have hR : remainingAfterIntro (40 : ℚ) 8 = 32 := by
    unfold remainingAfterIntro introAdjusted total_sec
    norm_num [max_def]
  have hideal : idealDur (remainingAfterIntro 40 8)
      (effImages [] "cache/title_card.png").length = 12 := by
    rw [hR, effImages_nil]
    unfold idealDur min_per_slide max_per_slide
    norm_num [max_def, min_def]
  have hfuel : planFuel (remainingAfterIntro 40 8) = 9 := by
    rw [hR]
    unfold planFuel
    norm_num
    decide
  have hstate : (planState 40 8 [] "cache/title_card.png").1.length = 2 := by
    unfold planState
    rw [hfuel, hideal, hR, effImages_nil]
    rw [planLoop, if_pos (by norm_num)]
    rw [planLoop, if_pos (by norm_num)]
    rw [planLoop, if_neg (by norm_num)]
    simp
  have hlen : (slide_plan 40 8 [] "cache/title_card.png").length = 3 := by
    unfold slide_plan
    rw [List.length_append, hstate]
    rfl
  exact ⟨hlen, by rw [hlen]; norm_num⟩

/-- **C2 (amended).** With `N = 0` images every plan entry (greedy and tail)
uses the generated title card; and when the remaining time `R` after the
intro satisfies `1 ≤ R ≤ 12` (so the clamped ideal covers `R` and the tail
floor is inactive) the plan is exactly one title-card slide of duration `R`. -/
theorem plan_no_images_title_card (T I0 : ℚ) (titleBg : String) :
    (∀ e ∈ slide_plan T I0 [] titleBg, e.1 = titleBg) ∧
    (1 ≤ remainingAfterIntro T I0 → remainingAfterIntro T I0 ≤ 12 →
      slide_plan T I0 [] titleBg = [(titleBg, remainingAfterIntro T I0)]) := by
  have himgs : effImages [] titleBg = [titleBg] := rfl
  constructor
  · intro e he
    unfold slide_plan at he
    rw [List.mem_append] at he
    rcases he with he | he
    · have := planLoop_images (effImages [] titleBg)
        (idealDur (remainingAfterIntro T I0) (effImages [] titleBg).length)
        (remainingAfterIntro T I0) (by rw [himgs]; exact List.cons_ne_nil _ _)
        (planFuel (remainingAfterIntro T I0)) 0 0 e (by simpa [planState] using he)
      rw [himgs] at this
      simpa using this
    · rw [List.mem_singleton] at he
      rw [he, himgs]
      simp [Nat.mod_one]
  · intro hR1 hR12
    have hlen : (effImages [] titleBg).length = 1 := by rw [himgs]; rfl
    have hideal : idealDur (remainingAfterIntro T I0) (effImages [] titleBg).length =
        max 4.0 (remainingAfterIntro T I0) := by
      rw [hlen]
      unfold idealDur min_per_slide max_per_slide
      rw [show ((max 1 1 : ℕ) : ℚ) = 1 by norm_num, div_one,
        min_eq_right (by norm_num; linarith)]
    have hguard : ¬ ((0 : ℚ) +
        idealDur (remainingAfterIntro T I0) (effImages [] titleBg).length <
          remainingAfterIntro T I0 - 0.25) := by
      rw [hideal]
      have hmax := le_max_right (4.0 : ℚ) (remainingAfterIntro T I0)
      intro hcontra
      norm_num at hcontra hmax
      linarith
    have hstate := planState_eq_nil T I0 [] titleBg hguard
    unfold slide_plan
    rw [hstate, himgs]
    simp only [List.nil_append, List.length_cons, List.length_nil, Nat.zero_mod,
      List.getD_cons_zero, sub_zero]
    rw [max_eq_right (le_trans (by norm_num) hR1)]

/-- Witness for C2 (amended): `T = 10`, `I₀ = 5` leaves `R = 5 ∈ [1, 12]`,
giving the single title-card slide of duration 5. -/
theorem plan_no_images_title_card_witness :
    slide_plan 10 5 [] "cache/title_card.png" =
      [("cache/title_card.png", remainingAfterIntro 10 5)] :=
  (plan_no_images_title_card 10 5 "cache/title_card.png").2
    (by unfold remainingAfterIntro introAdjusted total_sec; norm_num [max_def])
    (by unfold remainingAfterIntro introAdjusted total_sec; norm_num [max_def])

/-- **C10.** For every narration duration, configured intro and image list:
the plan is non-empty; every non-tail entry's duration is the single clamped
ideal value, which lies in `[4, 12]`; the tail entry's duration is at least
`1.0`; hence every planned duration is at least `1.0` (even when below the
4.0s per-slide minimum); and the greedy loop has terminated — giving it any
extra fuel beyond `planFuel` (each iteration adds `ideal ≥ 4` seconds)
changes nothing. -/
theorem plan_structure_invariants (T I0 : ℚ) (images : List String) (titleBg : String) :
    slide_plan T I0 images titleBg ≠ [] ∧
    (∀ e ∈ (slide_plan T I0 images titleBg).dropLast,
      e.2 = idealDur (remainingAfterIntro T I0) (effImages images titleBg).length) ∧
    4 ≤ idealDur (remainingAfterIntro T I0) (effImages images titleBg).length ∧
    idealDur (remainingAfterIntro T I0) (effImages images titleBg).length ≤ 12 ∧
    1 ≤ ((slide_plan T I0 images titleBg).getLastD ("", 0)).2 ∧
    (∀ e ∈ slide_plan T I0 images titleBg, 1 ≤ e.2) ∧
    (∀ m : ℕ, planLoop (effImages images titleBg)
        (idealDur (remainingAfterIntro T I0) (effImages images titleBg).length)
        (remainingAfterIntro T I0) (planFuel (remainingAfterIntro T I0) + m) 0 0 =
      planState T I0 images titleBg) := by
  have hid := idealDur_mem (remainingAfterIntro T I0) (effImages images titleBg).length
  refine ⟨?_, ?_, hid.1, hid.2, ?_, ?_, ?_⟩
  · unfold slide_plan
    simp
  · intro e he
    unfold slide_plan at he
    rw [List.dropLast_concat] at he
    exact planLoop_durations _ _ _ _ _ _ e (by simpa [planState] using he)
  · unfold slide_plan
    rw [List.getLastD_concat]
    exact le_trans (by norm_num) (le_max_left 1.0 _)
  · intro e he
    unfold slide_plan at he
    rw [List.mem_append] at he
    rcases he with he | he
    · have := planLoop_durations _ _ _ _ _ _ e (by simpa [planState] using he)
      rw [this]
      linarith [hid.1]
    · rw [List.mem_singleton] at he
      rw [he]
      exact le_trans (by norm_num) (le_max_left 1.0 _)
  · intro m
    unfold planState
    exact planLoop_fuel_stable _ _ _ hid.1 _ m 0 0
      (by
        have := R_le_four_mul_planFuel (le_of_lt (remaining_pos T I0))
        linarith)

/-! ### Audio mux (`_mux_audio`, render_service.py lines 243-257) -/

/-- Duration semantics of the mux step: `_mux_audio` maps the concatenated
video stream and the narration audio stream and passes `-shortest`, so the
container's duration is the minimum of the two stream durations (ffmpeg's
documented stream-clipping behaviour; a shorter stream is never extended). -/
def muxDuration (videoDur audioDur : ℚ) : ℚ := min videoDur audioDur

/-- **C9 counterexample.** A video stream shorter than the audio (1s video,
2s audio) is not extended to the audio's length: `-shortest` clips the
output to 1s, refuting "if it is shorter it is extended to match". -/
theorem mux_shorter_video_counterexample :
    muxDuration 1 2 = 1 ∧ ¬ muxDuration 1 2 = 2 := by
  unfold muxDuration
  constructor
  · norm_num
  · norm_num

/-- **C9 (amended).** The mux truncates to the shorter stream and never
extends the video; nonetheless in this pipeline the muxed duration always
equals the narration's duration, because the planned video (intro plus
slides) always covers the narration: `T ≤ intro + Σ slide durations`, hence
`min(video, audio) = audio`. -/
theorem mux_duration_eq_narration (T I0 : ℚ) (images : List String) (titleBg : String) :
    T ≤ introAdjusted T I0 + planSum (slide_plan T I0 images titleBg) ∧
    muxDuration (introAdjusted T I0 + planSum (slide_plan T I0 images titleBg)) T = T := by
  have h1 : total_sec T - introAdjusted T I0 ≤ remainingAfterIntro T I0 :=
    le_max_right _ _
  have h2 := planSum_ge T I0 images titleBg
  have h3 : T ≤ total_sec T := le_max_right _ _
  have hcov : T ≤ introAdjusted T I0 + planSum (slide_plan T I0 images titleBg) := by
    linarith
  exact ⟨hcov, min_eq_right hcov⟩

/-! ### Clip builders: ffmpeg command construction
(`_scale_to_cover_clause`, `_make_intro_still_clip`, `_make_slide_clip`,
`_concat_clips`, `_mux_audio`, render_service.py lines 108-257) -/

/-- Left-pad a numeral string with zeros to width `w`. -/
def padZeros (w : ℕ) (s : String) : String :=
  if s.length < w then String.mk (List.replicate (w - s.length) '0') ++ s else s

/-- Fixed-point decimal rendering with `w` fractional digits, as in Python's
`f"{x:.wf}"` format specifier. -/
def fixedFmt (w : ℕ) (q : ℚ) : String :=
  (if round (q * (10 : ℚ) ^ w) < 0 then "-" else "") ++
    toString ((round (q * (10 : ℚ) ^ w)).natAbs / 10 ^ w) ++ "." ++
    padZeros w (toString ((round (q * (10 : ℚ) ^ w)).natAbs % 10 ^ w))

/-- `f"{seconds:.3f}"`. -/
def fmt3 (q : ℚ) : String := fixedFmt 3 q

/-- `f"{zfixed:.5f}"` (line 142). -/
def fmt5 (q : ℚ) : String := fixedFmt 5 q

/-- Python `int()`: truncation toward zero. -/
def pyInt (q : ℚ) : ℤ := if 0 ≤ q then ⌊q⌋ else ⌈q⌉

/-- `_scale_to_cover_clause` (lines 108-118): expression-based cover scaling
followed by a crop to the output size. -/
def scale_to_cover_clause (ow oh : ℕ) : String :=
  "scale=w=\x27if(gt(a," ++ toString ow ++ "/" ++ toString oh ++ ")," ++ toString oh ++
    "*a," ++ toString ow ++ ")\x27:h=\x27if(gt(a," ++ toString ow ++ "/" ++ toString oh ++
    ")," ++ toString oh ++ "," ++ toString ow ++ "/a)\x27,crop=" ++ toString ow ++ ":" ++
    toString oh ++ ",setsar=1"

/-- `round((a)*(1-t)+(b)*t)` as an ffmpeg expression string (lines 157-158). -/
def lerpExpr (a b t : String) : String :=
  "round((" ++ a ++ ")*(1-" ++ t ++ ")+(" ++ b ++ ")*" ++ t ++ ")"

/-- `_zoompan_expr` (lines 130-182): the `(zoom, x, y)` expression strings
for a clip of `frames` frames in the given mode at fixed zoom `z`. -/
def zoompan_expr (frames : ℕ) (mode : ℕ) (z : ℚ) : String × String × String :=
  let framesM1 := max 1 (frames - 1)
  let t := "(on/" ++ toString framesM1 ++ ")"
  let zoom := fmt5 z
  let xspan := "floor(max(iw-(ow/" ++ zoom ++ "),0))"
  let yspan := "floor(max(ih-(oh/" ++ zoom ++ "),0))"
  let ymid := "round(" ++ yspan ++ "/2)"
  if mode = 0 then (zoom, lerpExpr "0" xspan t, ymid)
  else if mode = 1 then (zoom, lerpExpr "0" xspan t, lerpExpr yspan "0" t)
  else if mode = 2 then (zoom, lerpExpr "0" xspan t, lerpExpr "0" yspan t)
  else if mode = 3 then (zoom, lerpExpr xspan "0" t, lerpExpr yspan "0" t)
  else (zoom, lerpExpr xspan "0" t, lerpExpr "0" yspan t)

/-- The intro clip's `-filter_complex` value (line 194). -/
def introFilter (ow oh : ℕ) : String :=
  "[0:v]" ++ (scale_to_cover_clause ow oh ++ ",format=yuv420p[vout]")

/-- The slide clip's `-filter_complex` value (lines 207-208, 215-217):
`frames = max(1, int(seconds * 30))`, zoom-pan at `mode % 5`. -/
def slideFilter (seconds : ℚ) (ow oh : ℕ) (mode : ℕ) (z : ℚ) : String :=
  let frames := (max 1 (pyInt (seconds * 30))).toNat
  let e := zoompan_expr frames (mode % 5) z
  "[0:v]" ++ (scale_to_cover_clause ow oh ++ "[v];[v]zoompan=z=\x27" ++ e.1 ++
    "\x27:x=\x27" ++ e.2.1 ++ "\x27:y=\x27" ++ e.2.2 ++ "\x27:d=1:fps=30:s=" ++
    toString ow ++ "x" ++ toString oh ++ ",format=yuv420p[vout]")

/-- `_make_intro_still_clip`'s ffmpeg invocation (lines 189-202). -/
def intro_cmd (bg : String) (seconds : ℚ) (ow oh : ℕ) (out : String) : List String :=
  ["ffmpeg", "-y",
   "-framerate", "30", "-loop", "1", "-i", bg,
   "-filter_complex", introFilter ow oh,
   "-map", "[vout]",
   "-vsync", "cfr",
   "-r", "30",
   "-t", fmt3 seconds,
   "-c:v", "libx264", "-preset", "veryfast", "-b:v", "4500k", "-pix_fmt", "yuv420p",
   out]

/-- `_make_slide_clip`'s ffmpeg invocation (lines 210-225). -/
def slide_cmd (img : String) (seconds : ℚ) (ow oh : ℕ) (out : String)
    (mode : ℕ) (z : ℚ) : List String :=
  ["ffmpeg", "-y",
   "-framerate", "30", "-loop", "1", "-i", img,
   "-filter_complex", slideFilter seconds ow oh mode z,
   "-map", "[vout]",
   "-vsync", "cfr",
   "-r", "30",
   "-t", fmt3 seconds,
   "-c:v", "libx264", "-preset", "veryfast", "-b:v", "4500k", "-pix_fmt", "yuv420p",
   out]

/-- `_concat_clips`' ffmpeg invocation (lines 234-240): stream-copy concat. -/
def concat_cmd (listPath out : String) : List String :=
  ["ffmpeg", "-y", "-f", "concat", "-safe", "0", "-i", listPath, "-c", "copy", out]

/-- `_mux_audio`'s ffmpeg invocation (lines 245-256). -/
def mux_cmd (video audio out : String) : List String :=
  ["ffmpeg", "-y", "-i", video, "-i", audio,
   "-map", "0:v:0", "-map", "1:a:0",
   "-c:v", "copy",
   "-c:a", "aac", "-b:a", "192k",
   "-shortest",
   "-movflags", "+faststart",
   out]

/-- The four codec-parameter flags of interest. -/
def codecFlags : List String := ["-c:v", "-r", "-b:v", "-pix_fmt"]

/-- First value following a flag in an argument list. -/
def flagValue (flag : String) : List String → Option String
  | [] => none
  | a :: rest => if a = flag then rest.head? else flagValue flag rest

/-- Codec parameters of a command: encoder, frame rate, bitrate, pixel format. -/
def codecParams (cmd : List String) :
    Option String × Option String × Option String × Option String :=
  (flagValue "-c:v" cmd, flagValue "-r" cmd, flagValue "-b:v" cmd,
    flagValue "-pix_fmt" cmd)

/-- A `-filter_complex` value always starts with `[0:v]`, so it can never
collide with a codec flag during argument scanning. -/
lemma filter_ne_codec_flag (s f : String) (hf : f ∈ codecFlags) :
    ("[0:v]" ++ s) ≠ f := by
  intro he
  have hd := congrArg String.data he
  rw [String.data_append] at hd
  fin_cases hf <;> simp at hd

/-- **C7.** Every clip built in a run — the intro clip and every slide clip,
whatever its image, duration, mode or zoom — is encoded with identical codec
parameters: encoder `libx264`, frame rate `30`, bitrate `4500k` and pixel
format `yuv420p`.  (The hypotheses only rule out image paths or formatted
durations that collide with a flag name during argument scanning.) -/
lemma introFilter_ne_codec_flag (ow oh : ℕ) (f : String) (hf : f ∈ codecFlags) :
    introFilter ow oh ≠ f := by
  unfold introFilter
  exact filter_ne_codec_flag _ f hf

lemma slideFilter_ne_codec_flag (seconds : ℚ) (ow oh mode : ℕ) (z : ℚ)
    (f : String) (hf : f ∈ codecFlags) : slideFilter seconds ow oh mode z ≠ f := by
  unfold slideFilter
  exact filter_ne_codec_flag _ f hf

theorem clips_identical_codec_params (bg img o1 o2 : String) (s s' z : ℚ)
    (ow oh : ℕ) (mode : ℕ)
    (hbg : bg ∉ codecFlags) (himg : img ∉ codecFlags)
    (hs : fmt3 s ∉ codecFlags) (hs' : fmt3 s' ∉ codecFlags) :
    codecParams (intro_cmd bg s ow oh o1) =
      (some "libx264", some "30", some "4500k", some "yuv420p") ∧
    codecParams (slide_cmd img s' ow oh o2 mode z) =
      (some "libx264", some "30", some "4500k", some "yuv420p") := by
  simp only [codecFlags, List.mem_cons, List.not_mem_nil, or_false, not_or]
    at hbg himg hs hs'
  obtain ⟨hbg1, hbg2, hbg3, hbg4⟩ := hbg
  obtain ⟨himg1, himg2, himg3, himg4⟩ := himg
  obtain ⟨hs1, hs2, hs3, hs4⟩ := hs
  obtain ⟨hs'1, hs'2, hs'3, hs'4⟩ := hs'
  have hfi1 := introFilter_ne_codec_flag ow oh "-c:v" (by simp [codecFlags])
  have hfi2 := introFilter_ne_codec_flag ow oh "-r" (by simp [codecFlags])
  have hfi3 := introFilter_ne_codec_flag ow oh "-b:v" (by simp [codecFlags])
  have hfi4 := introFilter_ne_codec_flag ow oh "-pix_fmt" (by simp [codecFlags])
  have hfs1 := slideFilter_ne_codec_flag s' ow oh mode z "-c:v" (by simp [codecFlags])
  have hfs2 := slideFilter_ne_codec_flag s' ow oh mode z "-r" (by simp [codecFlags])
  have hfs3 := slideFilter_ne_codec_flag s' ow oh mode z "-b:v" (by simp [codecFlags])
  have hfs4 := slideFilter_ne_codec_flag s' ow oh mode z "-pix_fmt" (by simp [codecFlags])
  constructor
  · simp [codecParams, intro_cmd, flagValue,
      hbg1, hbg2, hbg3, hbg4, hfi1, hfi2, hfi3, hfi4, hs1, hs2, hs3, hs4]
  · simp [codecParams, slide_cmd, flagValue,
      himg1, himg2, himg3, himg4, hfs1, hfs2, hfs3, hfs4, hs'1, hs'2, hs'3, hs'4]

/-- Witness for C7: concrete paths, a 5-second duration (whose rendered form
is `"5.000"`), 1920×1080, mode 0, zoom 5/4. -/
theorem clips_identical_codec_params_witness :
    codecParams (intro_cmd "bg.png" 5 1920 1080 "o1.mp4") =
      (some "libx264", some "30", some "4500k", some "yuv420p") ∧
    codecParams (slide_cmd "img.png" 5 1920 1080 "o2.mp4" 0 (5/4)) =
      (some "libx264", some "30", some "4500k", some "yuv420p") := by
  have h3 : fmt3 5 = "5.000" := by
    unfold fmt3 fixedFmt padZeros
    have hm : ((5 : ℚ) * 10 ^ 3) = ((5000 : ℤ) : ℚ) := by norm_num
    rw [hm, round_intCast]
    rfl
  exact clips_identical_codec_params "bg.png" "img.png" "o1.mp4" "o2.mp4" 5 5 (5/4)
    1920 1080 0 (by decide) (by decide) (by rw [h3]; decide) (by rw [h3]; decide)

/-! ### Motion-mode assignment in the build loop (lines 324-327) -/

/-- `for idx, (img, secs) in enumerate(slide_plan, start=1): mode = (idx-1) % 5`:
the motion mode assigned to each slide of a plan, in order. -/
def slideModes (plan : List (String × ℚ)) : List ℕ :=
  (List.enumFrom 1 plan).map (fun p => (p.1 - 1) % 5)

/-- **C6.** For every slide plan and every 0-based index `k`, the motion mode
assigned to the `k`-th slide is `k % 5`; consequently, in any plan of fewer
than five slides, distinct slides get distinct modes. -/
theorem slide_mode_cycles (plan : List (String × ℚ)) (k : ℕ) (hk : k < plan.length) :
    (slideModes plan).getD k 0 = k % 5 ∧
    (plan.length < 5 → ∀ j, j < plan.length → j ≠ k →
      (slideModes plan).getD j 0 ≠ (slideModes plan).getD k 0) := by
  have hget : ∀ i, i < plan.length → (slideModes plan).getD i 0 = i % 5 := by
    intro i hi
    have hi' : i < (slideModes plan).length := by simpa [slideModes] using hi
    rw [List.getD_eq_getElem _ _ hi']
    simp [slideModes, List.getElem_map, List.getElem_enumFrom]
  refine ⟨hget k hk, ?_⟩
  intro h5 j hj hne
  rw [hget j hj, hget k hk]
  omega

/-- Witness for C6: a two-slide plan, index 1. -/
theorem slide_mode_cycles_witness :
    (slideModes [("a", (1 : ℚ)), ("b", 2)]).getD 1 0 = 1 % 5 ∧
    ([("a", (1 : ℚ)), ("b", 2)].length < 5 →
      ∀ j, j < [("a", (1 : ℚ)), ("b", 2)].length → j ≠ 1 →
        (slideModes [("a", (1 : ℚ)), ("b", 2)]).getD j 0 ≠
          (slideModes [("a", (1 : ℚ)), ("b", 2)]).getD 1 0) :=
  slide_mode_cycles [("a", (1 : ℚ)), ("b", 2)] 1 (by simp)

/-! ### Orchestration and error handling
(`_run` lines 100-106, `render_kenburns_video` lines 318-346) -/

/-- Result of one external ffmpeg invocation: exit code and captured stderr. -/
structure ExtResult where
  exitCode : ℕ
  stderrOut : String

/-- `_run` (lines 100-106): `subprocess.run(..., check=True)` raises on any
nonzero exit, and the handler logs the captured stderr and re-raises — the
error carries the diagnostic output to the caller. -/
def runExt (r : ExtResult) : Except String Unit :=
  if r.exitCode ≠ 0 then Except.error r.stderrOut else Except.ok ()

/-- Run the listed external commands strictly in order, stopping at the first
failure; `oracle n` is the result of the `n`-th invocation.  Returns the
outcome and the index after the last invocation attempted. -/
def execCalls (oracle : ℕ → ExtResult) : List (List String) → ℕ → Except String Unit × ℕ
  | [], n => (Except.ok (), n)
  | _ :: rest, n =>
    match runExt (oracle n) with
    | Except.error e => (Except.error e, n + 1)
    | Except.ok _ => execCalls oracle rest (n + 1)

/-- `f"{idx:02d}"` zero-padding. -/
def pad2 (n : ℕ) : String := if n < 10 then "0" ++ toString n else toString n

/-- `os.path.join(cache_dir, name)`. -/
def cacheJoin (cacheDir name : String) : String := cacheDir ++ "/" ++ name

/-- The ordered list of external invocations `render_kenburns_video` makes
(lines 318-336): the intro encode, one encode per planned slide (cache name
`clip_{idx:02d}.mp4`, mode `(idx - 1) % 5`), then the concat and the mux. -/
def renderCallList (T I0 : ℚ) (images : List String) (ow oh : ℕ) (z : ℚ)
    (audioPath cacheDir : String) : List (List String) :=
  intro_cmd (cacheJoin cacheDir "title_card.png") (introAdjusted T I0) ow oh
      (cacheJoin cacheDir "clip_00_intro_still.mp4") ::
    ((List.enumFrom 1 (slide_plan T I0 images (cacheJoin cacheDir "title_card.png"))).map
      (fun p => slide_cmd p.2.1 p.2.2 ow oh
        (cacheJoin cacheDir ("clip_" ++ pad2 p.1 ++ ".mp4")) ((p.1 - 1) % 5) z) ++
    [concat_cmd (cacheJoin cacheDir "concat_list.txt")
        (cacheJoin cacheDir "video_concat.mp4"),
      mux_cmd (cacheJoin cacheDir "video_concat.mp4") audioPath
        (cacheJoin cacheDir "final_mux.mp4")])

/-- Outcome of a render run: the result (captured stderr on error, the output
path on success), how many external invocations were attempted, and whether
the caller's destination file was replaced. -/
structure RenderOutcome where
  result : Except String String
  callsMade : ℕ
  destWritten : Bool

/-- `render_kenburns_video` (lines 261-349) as a pipeline over an oracle of
external-process results: the commands run strictly in order, the first
nonzero exit aborts the run, and the final move onto the caller's destination
(lines 338-346) happens only after every invocation succeeded. -/
def render_kenburns_video (oracle : ℕ → ExtResult) (T I0 : ℚ) (images : List String)
    (ow oh : ℕ) (z : ℚ) (audioPath outPath cacheDir : String) : RenderOutcome :=
  match execCalls oracle (renderCallList T I0 images ow oh z audioPath cacheDir) 0 with
  | (Except.ok _, n) => ⟨Except.ok outPath, n, true⟩
  | (Except.error e, n) => ⟨Except.error e, n, false⟩

lemma execCalls_first_fail (oracle : ℕ → ExtResult) :
    ∀ (calls : List (List String)) (n k : ℕ),
      (∀ j, j < k → (oracle (n + j)).exitCode = 0) →
      (oracle (n + k)).exitCode ≠ 0 →
      k < calls.length →
      execCalls oracle calls n = (Except.error (oracle (n + k)).stderrOut, n + k + 1) := by
  intro calls
  induction calls with
  | nil => intro n k h1 h2 hk; simp at hk
  | cons c rest ih =>
      intro n k h1 h2 hk
      cases k with
      | zero =>
          rw [Nat.add_zero] at h2 ⊢
          unfold execCalls runExt
          simp [h2]
      | succ k' =>
          have h0 : (oracle (n + 0)).exitCode = 0 := h1 0 (Nat.succ_pos _)
          rw [Nat.add_zero] at h0
          unfold execCalls runExt
          simp only [h0, ne_eq, not_true_eq_false, if_false, ite_false]
          rw [show n + (k' + 1) = n + 1 + k' from by omega]
          exact ih (n + 1) k'
            (fun j hj => by
              have := h1 (j + 1) (by omega)
              rwa [show n + (j + 1) = n + 1 + j from by omega] at this)
            (by rwa [show n + 1 + k' = n + (k' + 1) from by omega])
            (by simpa using Nat.lt_of_succ_lt_succ (by simpa using hk))

/-- **C8.** If the `k`-th external invocation (encode, concat or mux) is the
first to exit nonzero, the pipeline stops right there — exactly `k + 1`
invocations are ever attempted, with no retry — the captured stderr of the
failing call is surfaced as the error result, and the caller's destination
file is never written. -/
theorem proc_failure_aborts_pipeline (oracle : ℕ → ExtResult) (T I0 : ℚ)
    (images : List String) (ow oh : ℕ) (z : ℚ) (audioPath outPath cacheDir : String)
    (k : ℕ)
    (hpre : ∀ j, j < k → (oracle j).exitCode = 0)
    (hfail : (oracle k).exitCode ≠ 0)
    (hk : k < (renderCallList T I0 images ow oh z audioPath cacheDir).length) :
    (render_kenburns_video oracle T I0 images ow oh z audioPath outPath cacheDir).result =
      Except.error (oracle k).stderrOut ∧
    (render_kenburns_video oracle T I0 images ow oh z audioPath outPath cacheDir).callsMade =
      k + 1 ∧
    (render_kenburns_video oracle T I0 images ow oh z audioPath outPath cacheDir).destWritten =
      false := by
  have h := execCalls_first_fail oracle
    (renderCallList T I0 images ow oh z audioPath cacheDir) 0 k
    (fun j hj => by simpa using hpre j hj) (by simpa using hfail) hk
  simp only [Nat.zero_add] at h
  unfold render_kenburns_video
  rw [h]
  exact ⟨rfl, rfl, rfl⟩

/-- Witness for C8: an oracle whose very first call fails with stderr
`"boom"`; the run attempts exactly one invocation and writes nothing. -/
theorem proc_failure_aborts_pipeline_witness :
    (render_kenburns_video (fun n => if n = 0 then ⟨1, "boom"⟩ else ⟨0, ""⟩)
        10 3 [] 1920 1080 (5/4) "audio.mp3" "out.mp4" "cache").result =
      Except.error ((fun n : ℕ => if n = 0 then (⟨1, "boom"⟩ : ExtResult)
        else ⟨0, ""⟩) 0).stderrOut ∧
    (render_kenburns_video (fun n => if n = 0 then ⟨1, "boom"⟩ else ⟨0, ""⟩)
        10 3 [] 1920 1080 (5/4) "audio.mp3" "out.mp4" "cache").callsMade = 0 + 1 ∧
    (render_kenburns_video (fun n => if n = 0 then ⟨1, "boom"⟩ else ⟨0, ""⟩)
        10 3 [] 1920 1080 (5/4) "audio.mp3" "out.mp4" "cache").destWritten = false :=
  proc_failure_aborts_pipeline (fun n => if n = 0 then ⟨1, "boom"⟩ else ⟨0, ""⟩)
    10 3 [] 1920 1080 (5/4) "audio.mp3" "out.mp4" "cache" 0
    (fun j hj => absurd hj (by omega)) (by decide) (by simp [renderCallList])

end RenderService
